import Mathlib

/-!
Verification of the FERRE driver module `apogee/modelspec/ferre.py`.

The Python source is shallowly embedded: the two file-writing functions are
modelled as functions producing the list of text lines they write, the
subprocess call in `run_ferre` is modelled by an explicit outcome value, and
numpy scalars / one-dimensional arrays are modelled by an inductive value
type.  Machine floats are modelled by rationals; `numpy.log10` is an explicit
function parameter of the record writer.
-/

namespace Ferre

/-- Decimal digit characters, used to embed the output of Python `%`-style
integer and fixed-point formatting (`%i`, `%.3f`, `%.1f`). -/
def digitChar (d : Nat) : Char :=
  if d = 0 then '0' else if d = 1 then '1' else if d = 2 then '2'
  else if d = 3 then '3' else if d = 4 then '4' else if d = 5 then '5'
  else if d = 6 then '6' else if d = 7 then '7' else if d = 8 then '8' else '9'

/-- Fuelled decimal printer for naturals, most significant digit first. -/
def natDigitsAux : Nat → Nat → List Char
  | 0, _ => []
  | fuel + 1, n =>
    if n < 10 then [digitChar n]
    else natDigitsAux fuel (n / 10) ++ [digitChar (n % 10)]

/-- Decimal digits of a natural number (`n + 1` units of fuel always
suffice, since the recursion depth is the digit count). -/
def natChars (n : Nat) : List Char := natDigitsAux (n + 1) n

/-- Decimal rendering of a natural number, embedding Python `'%i' % n` for
nonnegative `n`. -/
def natStr (n : Nat) : String := String.mk (natChars n)

/-- The single-quote character `'` written around string values in the
configuration file. -/
def squote : Char := Char.ofNat 39

/-- The single-quote character as a one-character string. -/
def squoteStr : String := String.mk [squote]

/-- Embedding of `write_input_nml` (ferre.py lines 58-105): the list of text
lines written to `<dir>/input.nml`, in order, without trailing newlines.
The `dir` argument only fixes the output path and is omitted; `synthfile`
is the already-resolved model-grid header path (when the Python caller
passes `None`, it is resolved by `apogee.tools.path.ferreModelLibraryPath`,
an external collaborator outside this module).  Source defaults:
`ndim=6, nov=0, inter=3, f_format=1, f_access=1`. -/
def write_input_nml (pfile offile : String) (ndim nov : Nat)
    (synthfile : String) (inter f_format f_access : Nat) : List String :=
  [ "&LISTA",
    "NDIM = " ++ natStr ndim,
    "NOV = " ++ natStr nov,
    (List.range' 1 ndim).foldl (fun s i => s ++ " " ++ natStr i) "INDV =",
    "SYNTHFILE(1) = " ++ squoteStr ++ synthfile ++ squoteStr,
    "PFILE = " ++ squoteStr ++ pfile ++ squoteStr,
    "OFFILE = " ++ squoteStr ++ offile ++ squoteStr,
    "INTER = " ++ natStr inter,
    "F_FORMAT = " ++ natStr f_format,
    "F_ACCESS = " ++ natStr f_access,
    "/" ]

theorem digitChar_isDigit (d : Nat) : (digitChar d).isDigit = true := by
  unfold digitChar
  split_ifs <;> decide

theorem natDigitsAux_isDigit :
    ∀ fuel n : Nat, ∀ c ∈ natDigitsAux fuel n, c.isDigit = true := by
  intro fuel
  induction fuel with
  | zero => intro n c hc; simp [natDigitsAux] at hc
  | succ fuel ih =>
    intro n c hc
    simp only [natDigitsAux] at hc
    split at hc
    · simp at hc
      subst hc
      exact digitChar_isDigit n
    · rcases List.mem_append.1 hc with h | h
      · exact ih _ c h
      · simp at h
        subst h
        exact digitChar_isDigit (n % 10)

theorem isDigit_ne_squote {c : Char} (h : c.isDigit = true) : c ≠ squote := by
  intro hc
  subst hc
  exact absurd h (by decide)

theorem isDigit_ne_space {c : Char} (h : c.isDigit = true) : c ≠ ' ' := by
  intro hc
  subst hc
  exact absurd h (by decide)

theorem natStr_no_squote (n : Nat) : squote ∉ (natStr n).data := by
  intro h
  exact isDigit_ne_squote (natDigitsAux_isDigit _ n _ h) rfl

theorem no_squote_append_natStr (a : String) (n : Nat) (ha : squote ∉ a.data) :
    squote ∉ (a ++ natStr n).data := by
  rw [String.data_append]
  intro h
  rcases List.mem_append.1 h with h | h
  · exact ha h
  · exact natStr_no_squote n h

/-- The rounding performed by C-style fixed-point formatting, embedded as
round-half-up on rationals: `scaledRound p q = ⌊q·10^p + 1/2⌋`, computed on
the numerator and denominator directly (`q·10^p + 1/2 =
(2·num·10^p + den) / (2·den)` and `Int.fdiv` is floored division).
Printf rounds ties on the binary float to even; the tie case is not
exercised by any claim. -/
def scaledRound (prec : Nat) (q : ℚ) : ℤ :=
  Int.fdiv (2 * q.num * 10 ^ prec + (q.den : ℤ)) (2 * (q.den : ℤ))

/-- Left-pad a digit list with zeros to width `k`. -/
def padZeros (k : Nat) (cs : List Char) : List Char :=
  List.replicate (k - cs.length) '0' ++ cs

/-- Character list of Python `'%.<prec>f' % q`: optional minus sign, integer
digits, a dot, and exactly `prec` fractional digits. -/
def fmtChars (prec : Nat) (q : ℚ) : List Char :=
  (if scaledRound prec q < 0 then ['-'] else []) ++
    natChars ((scaledRound prec q).natAbs / 10 ^ prec) ++ ['.'] ++
    padZeros prec (natChars ((scaledRound prec q).natAbs % 10 ^ prec))

/-- Embedding of Python fixed-point formatting `'%.<prec>f' % q`. -/
def fmtFixed (prec : Nat) (q : ℚ) : String := String.mk (fmtChars prec q)

/-- Characters that may appear in a formatted numeric field. -/
def isNumChar (c : Char) : Bool := c.isDigit || c == '-' || c == '.'

theorem isNumChar_of_isDigit {c : Char} (h : c.isDigit = true) :
    isNumChar c = true := by
  simp [isNumChar, h]

theorem padZeros_mem {k : Nat} {cs : List Char} {c : Char}
    (h : c ∈ padZeros k cs) : c = '0' ∨ c ∈ cs := by
  rcases List.mem_append.1 h with h | h
  · exact Or.inl (List.eq_of_mem_replicate h)
  · exact Or.inr h

theorem fmtChars_numChar (prec : Nat) (q : ℚ) :
    ∀ c ∈ fmtChars prec q, isNumChar c = true := by
  intro c hc
  unfold fmtChars at hc
  rcases List.mem_append.1 hc with hc | hc
  · rcases List.mem_append.1 hc with hc | hc
    · rcases List.mem_append.1 hc with hc | hc
      · split at hc <;> simp at hc
        subst hc; decide
      · exact isNumChar_of_isDigit (natDigitsAux_isDigit _ _ _ hc)
    · simp at hc; subst hc; decide
  · rcases padZeros_mem hc with hc | hc
    · subst hc; decide
    · exact isNumChar_of_isDigit (natDigitsAux_isDigit _ _ _ hc)

theorem isNumChar_ne_space {c : Char} (h : isNumChar c = true) : c ≠ ' ' := by
  intro hc
  subst hc
  exact absurd h (by decide)

theorem fmtChars_no_space (prec : Nat) (q : ℚ) : ' ' ∉ fmtChars prec q := by
  intro h
  exact isNumChar_ne_space (fmtChars_numChar prec q _ h) rfl

theorem fmtChars_ne_nil (prec : Nat) (q : ℚ) : fmtChars prec q ≠ [] := by
  unfold fmtChars
  intro h
  rcases List.append_eq_nil.1 h with ⟨h1, h2⟩
  rcases List.append_eq_nil.1 h1 with ⟨h3, h4⟩
  exact List.cons_ne_nil _ _ h4

/-- Claim C1 (counterexample): with all defaults the configuration file does
not consist of 9 lines — the 9 directive lines sit between an open and a
close marker, giving 11 lines in total. -/
theorem write_input_nml_defaults_length_ne_nine :
    (write_input_nml "in.ipf" "out.dat" 6 0 "synth.hdr" 3 1 1).length ≠ 9 := by
  decide

/-- Claim C1 (amended): for every call to `write_input_nml` with all
defaults (`ndim=6, nov=0, inter=3, f_format=1, f_access=1`, a supplied
synthfile), the configuration file written at `<dir>/input.nml` consists of
exactly 11 lines, in the fixed order: open marker, NDIM, NOV, INDV (with
`ndim` space-separated increasing integers from 1), SYNTHFILE, PFILE,
OFFILE, INTER, F_FORMAT, F_ACCESS, close marker. -/
theorem write_input_nml_defaults_lines (pfile offile synthfile : String) :
    write_input_nml pfile offile 6 0 synthfile 3 1 1 =
      [ "&LISTA",
        "NDIM = 6",
        "NOV = 0",
        "INDV = 1 2 3 4 5 6",
        "SYNTHFILE(1) = " ++ squoteStr ++ synthfile ++ squoteStr,
        "PFILE = " ++ squoteStr ++ pfile ++ squoteStr,
        "OFFILE = " ++ squoteStr ++ offile ++ squoteStr,
        "INTER = 3",
        "F_FORMAT = 1",
        "F_ACCESS = 1",
        "/" ] ∧
    (write_input_nml pfile offile 6 0 synthfile 3 1 1).length = 11 :=
  ⟨rfl, rfl⟩

/-- Claim C7: the call `write_input_nml(dir, "in.ipf", "out.dat", ndim=6,
nov=0)` produces a configuration file whose INDV line (the fourth line) is
exactly `INDV = 1 2 3 4 5 6`, whatever synthfile the external path lookup
resolves to. -/
theorem write_input_nml_indv_line (synthfile : String) :
    (write_input_nml "in.ipf" "out.dat" 6 0 synthfile 3 1 1).get? 3 =
      some "INDV = 1 2 3 4 5 6" :=
  rfl

/-- Claim C10: in the configuration file the three string-valued directives
(SYNTHFILE, PFILE, OFFILE) have their values enclosed in single quotes, the
model-grid header directive's key is literally `SYNTHFILE(1)`, and the
numeric directives (NDIM, NOV, INTER, F_FORMAT, F_ACCESS) are written
without any quote character. -/
theorem write_input_nml_quoting (pfile offile synthfile : String)
    (ndim nov inter f_format f_access : Nat) :
    ((write_input_nml pfile offile ndim nov synthfile inter f_format
        f_access).get? 4 =
      some ("SYNTHFILE(1) = " ++ squoteStr ++ synthfile ++ squoteStr)) ∧
    ((write_input_nml pfile offile ndim nov synthfile inter f_format
        f_access).get? 5 =
      some ("PFILE = " ++ squoteStr ++ pfile ++ squoteStr)) ∧
    ((write_input_nml pfile offile ndim nov synthfile inter f_format
        f_access).get? 6 =
      some ("OFFILE = " ++ squoteStr ++ offile ++ squoteStr)) ∧
    (∀ j ∈ ([1, 2, 7, 8, 9] : List Nat), ∀ s : String,
      (write_input_nml pfile offile ndim nov synthfile inter f_format
        f_access).get? j = some s →
      squote ∉ s.data) := by
  refine ⟨rfl, rfl, rfl, ?_⟩
  intro j hj s hs
  fin_cases hj <;>
  · simp only [write_input_nml, List.get?] at hs
    injection hs with h
    subst h
    exact no_squote_append_natStr _ _ (by decide)

/-- Embedding of a numpy scalar or (possibly nested) array argument value.
`numpy.array(v).shape == ()` holds exactly for `num` values. -/
inductive Val where
  | num (x : ℚ)
  | arr (xs : List Val)

/-- Shape test `numpy.array(args[1]).shape == ()` from ferre.py line 13. -/
def isScalarShape : Val → Bool
  | Val.num _ => true
  | Val.arr _ => false

/-- Result of a call to a decorated function: the wrapped function's `None`
propagated, a single row after scalar collapse (`result[0,:]`), the full
result in array mode, or the `IndexError` Python raises when `result[0,:]`
is taken of an empty result or `args[1]` is missing. -/
inductive WrapOut (ρ : Type) where
  | none
  | row (r : ρ)
  | full (rows : List ρ)
  | indexError
deriving DecidableEq

/-- Embedding of `paramArrayInputDecorator.scalar_wrapper` (ferre.py lines
12-28).  `func` is the wrapped function: first argument an opaque context
(`args[0]`, the directory), then the remaining positional parameter values,
then the optional keyword argument `vm`; it returns `Option` of a list of
rows (`Option.none` embeds a Python `None` result, `some rows` the first
axis of a two-dimensional array result). -/
def scalar_wrapper {κ ρ : Type}
    (func : κ → List Val → Option Val → Option (List ρ))
    (ctx : κ) (params : List Val) (vm : Option Val) : WrapOut ρ :=
  match params with
  | [] => WrapOut.indexError
  | p :: _ =>
    let scalarOut := isScalarShape p
    let args := if scalarOut then params.map (fun v => Val.arr [v]) else params
    let vmArg := if scalarOut then vm.map (fun v => Val.arr [v]) else vm
    match func ctx args vmArg with
    | Option.none => WrapOut.none
    | some rows =>
      if scalarOut then
        match rows with
        | [] => WrapOut.indexError
        | r :: _ => WrapOut.row r
      else WrapOut.full rows

/-- Embedding of `paramArrayInputDecorator` itself: decorating `func` calls
`scalar_wrapper` on it. -/
def paramArrayInputDecorator {κ ρ : Type}
    (func : κ → List Val → Option Val → Option (List ρ)) :
    κ → List Val → Option Val → WrapOut ρ :=
  scalar_wrapper func

/-- Spec-side description for claim C2: the result of an array-mode
invocation, indexed at position 0 along the first axis. -/
def rowZero {ρ : Type} : Option (List ρ) → WrapOut ρ
  | Option.none => WrapOut.none
  | some [] => WrapOut.indexError
  | some (r :: _) => WrapOut.row r

/-- Claim C2: for every scalar input tuple (teff, logg, metals, am, nm, cm,
and optional vm), calling a function wrapped by the input normalizer
returns what direct array-mode invocation of the unwrapped function with
one-element arrays for each parameter would produce, indexed at position 0
(the synthetic single-element dimension collapsed). -/
theorem scalar_wrapper_scalar_mode {κ ρ : Type}
    (func : κ → List Val → Option Val → Option (List ρ)) (ctx : κ)
    (teff logg metals am nm cm : ℚ) (vm : Option ℚ) :
    scalar_wrapper func ctx
        [Val.num teff, Val.num logg, Val.num metals,
         Val.num am, Val.num nm, Val.num cm]
        (vm.map Val.num) =
      rowZero (func ctx
        [Val.arr [Val.num teff], Val.arr [Val.num logg],
         Val.arr [Val.num metals], Val.arr [Val.num am],
         Val.arr [Val.num nm], Val.arr [Val.num cm]]
        (vm.map (fun v => Val.arr [Val.num v]))) := by
  cases vm with
  | none =>
    cases h : func ctx
        [Val.arr [Val.num teff], Val.arr [Val.num logg],
         Val.arr [Val.num metals], Val.arr [Val.num am],
         Val.arr [Val.num nm], Val.arr [Val.num cm]] Option.none with
    | none => simp [scalar_wrapper, rowZero, isScalarShape, h]
    | some rows =>
      cases rows <;> simp [scalar_wrapper, rowZero, isScalarShape, h]
  | some v =>
    cases h : func ctx
        [Val.arr [Val.num teff], Val.arr [Val.num logg],
         Val.arr [Val.num metals], Val.arr [Val.num am],
         Val.arr [Val.num nm], Val.arr [Val.num cm]]
        (some (Val.arr [Val.num v])) with
    | none => simp [scalar_wrapper, rowZero, isScalarShape, h]
    | some rows =>
      cases rows <;> simp [scalar_wrapper, rowZero, isScalarShape, h]

/-- Claim C6: for array inputs (second positional argument not
zero-dimensional), the arguments are passed through to the wrapped function
unchanged and a non-`None` result is returned unchanged in shape. -/
theorem scalar_wrapper_array_passthrough {κ ρ : Type}
    (func : κ → List Val → Option Val → Option (List ρ)) (ctx : κ)
    (p : Val) (ps : List Val) (vm : Option Val) (rows : List ρ)
    (hshape : isScalarShape p = false)
    (hres : func ctx (p :: ps) vm = some rows) :
    scalar_wrapper func ctx (p :: ps) vm = WrapOut.full rows := by
  simp [scalar_wrapper, hshape, hres]

/-- Claim C6 witness at a concrete array-mode call. -/
theorem scalar_wrapper_array_passthrough_witness :
    scalar_wrapper (fun _ _ _ => some [(0 : ℚ)]) "dir"
      [Val.arr [Val.num 1]] Option.none = WrapOut.full [(0 : ℚ)] :=
  scalar_wrapper_array_passthrough (fun _ _ _ => some [(0 : ℚ)]) "dir"
    (Val.arr [Val.num 1]) [] Option.none [(0 : ℚ)] rfl rfl

/-- Claim C8: in both scalar-mode and array-mode, if the wrapped function
returns the absence-of-value marker (`None`), the wrapper propagates it
unchanged without attempting scalar collapse. -/
theorem scalar_wrapper_none_propagation {κ ρ : Type}
    (func : κ → List Val → Option Val → Option (List ρ)) (ctx : κ)
    (p : Val) (ps : List Val) (vm : Option Val) :
    (isScalarShape p = true →
      func ctx ((p :: ps).map (fun v => Val.arr [v]))
        (vm.map (fun v => Val.arr [v])) = Option.none →
      scalar_wrapper func ctx (p :: ps) vm = WrapOut.none) ∧
    (isScalarShape p = false →
      func ctx (p :: ps) vm = Option.none →
      scalar_wrapper func ctx (p :: ps) vm = WrapOut.none) := by
  constructor <;> intro hshape hres <;>
    (try simp only [List.map_cons] at hres) <;> simp [scalar_wrapper, hshape, hres]

/-- Claim C8 witness at a concrete scalar-mode call of a `None`-returning
function. -/
theorem scalar_wrapper_none_propagation_witness :
    scalar_wrapper (fun _ _ _ => (Option.none : Option (List ℚ))) "dir"
      [Val.num 1] Option.none = WrapOut.none :=
  (scalar_wrapper_none_propagation (fun _ _ _ => (Option.none : Option (List ℚ)))
    "dir" (Val.num 1) [] Option.none).1 rfl rfl

/-- Outcome of attempting to launch the external `ferre` binary: either the
process ran and exited with a status code (its diagnostic output captured
when not verbose), or it could not be started at all
(a `FileNotFoundError` / `OSError` from `subprocess`). -/
inductive ProcOutcome where
  | exited (code : Nat) (captured : String)
  | launchError (msg : String)

/-- Errors surfaced by `run_ferre`: the generic `Exception` raised on a
`CalledProcessError`, or the un-wrapped launch failure. -/
inductive FerreError where
  | execFailure (msg : String)
  | launchFailure (msg : String)
deriving DecidableEq

/-- Embedding of `run_ferre` (ferre.py lines 31-56).  The subprocess call
is modelled by its outcome `outcome`; `subprocess.check_call` raises
`CalledProcessError` exactly on a non-zero exit status, which the source
catches and replaces with a generic `Exception` naming the directory, and
launch failures propagate un-wrapped.  The `verbose` flag only chooses
whether the captured output is inherited or discarded and does not affect
the returned value. -/
def run_ferre (outcome : ProcOutcome) (dir : String) : Except FerreError Unit :=
  match outcome with
  | ProcOutcome.launchError msg => Except.error (FerreError.launchFailure msg)
  | ProcOutcome.exited code _captured =>
    if code = 0 then Except.ok ()
    else Except.error (FerreError.execFailure
      ("Running FERRE instance in directory " ++ dir ++ " failed ..."))

/-- The string `needle` occurs inside `hay`. -/
def containsStr (needle hay : String) : Prop :=
  ∃ pre post : String, hay = pre ++ needle ++ post

/-- Claim C4: `run_ferre` raises an error if and only if the external
program fails: a non-zero exit raises a generic execution failure whose
message names the working directory and is independent of the captured
diagnostic output; a launch failure propagates un-wrapped, distinguishable
from the non-zero-exit case; on success it returns the absence-of-value
marker. -/
theorem run_ferre_error_contract (dir captured m : String) (code : Nat) :
    (code ≠ 0 →
      run_ferre (ProcOutcome.exited code captured) dir =
        Except.error (FerreError.execFailure
          ("Running FERRE instance in directory " ++ dir ++ " failed ...")) ∧
      containsStr dir
        ("Running FERRE instance in directory " ++ dir ++ " failed ...") ∧
      (∀ captured2, run_ferre (ProcOutcome.exited code captured) dir =
        run_ferre (ProcOutcome.exited code captured2) dir)) ∧
    (run_ferre (ProcOutcome.launchError m) dir =
      Except.error (FerreError.launchFailure m)) ∧
    (run_ferre (ProcOutcome.exited 0 captured) dir = Except.ok ()) := by
  refine ⟨fun h => ⟨?_, ?_, fun captured2 => ?_⟩, rfl, rfl⟩
  · simp [run_ferre, h]
  · exact ⟨"Running FERRE instance in directory ", " failed ...", rfl⟩
  · simp [run_ferre]

/-- Claim C4 witness at exit status 1 in directory `work`. -/
theorem run_ferre_error_contract_witness :
    run_ferre (ProcOutcome.exited 1 "diagnostic text") "work" =
      Except.error (FerreError.execFailure
        ("Running FERRE instance in directory " ++ "work" ++ " failed ...")) :=
  ((run_ferre_error_contract "work" "diagnostic text" "x" 1).1 (by decide)).1

/-- Option-valued traversal: `some` of all results in order, or
`Option.none` as soon as one element fails (the write loop of
`write_interpolate_ipf` aborts with an `IndexError` at the first
out-of-range access). -/
def optionMap {α β : Type} (f : α → Option β) : List α → Option (List β)
  | [] => some []
  | x :: xs =>
    match f x, optionMap f xs with
    | some y, some ys => some (y :: ys)
    | _, _ => Option.none

/-- The record line for index `ii` of the loop body of
`write_interpolate_ipf` (ferre.py lines 131-138): the `dummy` identifier
token, the optional `log10` of the microturbulence to 3 decimal places,
then carbon, nitrogen, alpha, metallicity, gravity to 3 decimal places and
effective temperature to 1 decimal place; `Option.none` embeds the
`IndexError` raised by an out-of-range access. -/
def ipfRecordLine (log10 : ℚ → ℚ) (teff logg metals am nm cm : List ℚ)
    (vm : Option (List ℚ)) (ii : Nat) : Option String := do
  let pre ←
    match vm with
    | Option.none => some "dummy "
    | some vs => do
      let v ← vs.get? ii
      some ("dummy " ++ fmtFixed 3 (log10 v) ++ " ")
  let c ← cm.get? ii
  let n ← nm.get? ii
  let a ← am.get? ii
  let m ← metals.get? ii
  let g ← logg.get? ii
  let t ← teff.get? ii
  some (pre ++ fmtFixed 3 c ++ " " ++ fmtFixed 3 n ++ " " ++ fmtFixed 3 a ++
    " " ++ fmtFixed 3 m ++ " " ++ fmtFixed 3 g ++ " " ++ fmtFixed 1 t)

/-- Embedding of the body of `write_interpolate_ipf` (ferre.py lines
108-139, array mode): the lines written to `<dir>/input.ipf`, without
trailing newlines, looping `ii` over `range(len(teff))`.  `numpy.log10` is
passed in as `log10`. -/
def write_interpolate_ipf (log10 : ℚ → ℚ)
    (teff logg metals am nm cm : List ℚ) (vm : Option (List ℚ)) :
    Option (List String) :=
  optionMap (ipfRecordLine log10 teff logg metals am nm cm vm)
    (List.range teff.length)

theorem optionMap_length {α β : Type} (f : α → Option β) :
    ∀ xs ys, optionMap f xs = some ys → ys.length = xs.length := by
  intro xs
  induction xs with
  | nil => intro ys h; simp [optionMap] at h; simp [h.symm]
  | cons x xs ih =>
    intro ys h
    simp only [optionMap] at h
    cases hx : f x with
    | none => rw [hx] at h; simp at h
    | some y =>
      rw [hx] at h
      cases hxs : optionMap f xs with
      | none => rw [hxs] at h; simp at h
      | some ys0 =>
        rw [hxs] at h
        simp at h
        subst h
        simp [ih ys0 hxs]

theorem optionMap_get? {α β : Type} (f : α → Option β) :
    ∀ xs ys, optionMap f xs = some ys →
      ∀ i x, xs.get? i = some x →
        ∃ y, f x = some y ∧ ys.get? i = some y := by
  intro xs
  induction xs with
  | nil => intro ys h i x hx; simp at hx
  | cons x0 xs ih =>
    intro ys h i x hx
    simp only [optionMap] at h
    cases hx0 : f x0 with
    | none => rw [hx0] at h; simp at h
    | some y0 =>
      rw [hx0] at h
      cases hxs : optionMap f xs with
      | none => rw [hxs] at h; simp at h
      | some ys0 =>
        rw [hxs] at h
        simp at h
        subst h
        cases i with
        | zero =>
          rw [List.get?_cons_zero] at hx
          injection hx with hx
          subst hx
          exact ⟨y0, hx0, rfl⟩
        | succ i =>
          rw [List.get?_cons_succ] at hx
          obtain ⟨y, hy, hys⟩ := ih ys0 hxs i x hx
          exact ⟨y, hy, by simpa using hys⟩

theorem optionMap_none_of_mem {α β : Type} (f : α → Option β) :
    ∀ xs, ∀ x ∈ xs, f x = Option.none → optionMap f xs = Option.none := by
  intro xs
  induction xs with
  | nil => intro x hx; simp at hx
  | cons x0 xs ih =>
    intro x hx hfx
    rcases List.mem_cons.1 hx with h | h
    · subst h
      simp [optionMap, hfx]
    · simp only [optionMap, ih x h hfx]
      cases f x0 <;> rfl

theorem optionMap_isSome {α β : Type} (f : α → Option β) :
    ∀ xs, (∀ x ∈ xs, (f x).isSome = true) → ∃ ys, optionMap f xs = some ys := by
  intro xs
  induction xs with
  | nil => intro _; exact ⟨[], rfl⟩
  | cons x0 xs ih =>
    intro h
    obtain ⟨y0, hy0⟩ := Option.isSome_iff_exists.1 (h x0 (List.mem_cons_self x0 xs))
    obtain ⟨ys, hys⟩ := ih (fun x hx => h x (List.mem_cons_of_mem x0 hx))
    exact ⟨y0 :: ys, by simp [optionMap, hy0, hys]⟩

theorem optionMap_congr {α β : Type} (f g : α → Option β) :
    ∀ xs, (∀ x ∈ xs, f x = g x) → optionMap f xs = optionMap g xs := by
  intro xs
  induction xs with
  | nil => intro _; rfl
  | cons x0 xs ih =>
    intro h
    simp only [optionMap, h x0 (List.mem_cons_self x0 xs),
      ih (fun x hx => h x (List.mem_cons_of_mem x0 hx))]

theorem ipfRecordLine_some_vm_inv (log10 : ℚ → ℚ)
    (teff logg metals am nm cm vs : List ℚ) (ii : Nat) (line : String)
    (h : ipfRecordLine log10 teff logg metals am nm cm (some vs) ii = some line) :
    ∃ v c n a m g t, vs.get? ii = some v ∧ cm.get? ii = some c ∧
      nm.get? ii = some n ∧ am.get? ii = some a ∧ metals.get? ii = some m ∧
      logg.get? ii = some g ∧ teff.get? ii = some t ∧
      line = ("dummy " ++ fmtFixed 3 (log10 v) ++ " ") ++ fmtFixed 3 c ++ " " ++
        fmtFixed 3 n ++ " " ++ fmtFixed 3 a ++ " " ++ fmtFixed 3 m ++ " " ++
        fmtFixed 3 g ++ " " ++ fmtFixed 1 t := by
  simp only [ipfRecordLine, bind, Option.bind_eq_some, Option.some.injEq] at h
  obtain ⟨v, hv, pre, hpre, c, hc, n, hn, a, ha, m, hm, g, hg, t, ht, hline⟩ := h
  exact ⟨v, c, n, a, m, g, t, hv, hc, hn, ha, hm, hg, ht, by rw [← hline, ← hpre]⟩

theorem ipfRecordLine_some_inv (log10 : ℚ → ℚ)
    (teff logg metals am nm cm : List ℚ) (ii : Nat) (line : String)
    (h : ipfRecordLine log10 teff logg metals am nm cm Option.none ii = some line) :
    ∃ c n a m g t, cm.get? ii = some c ∧ nm.get? ii = some n ∧
      am.get? ii = some a ∧ metals.get? ii = some m ∧ logg.get? ii = some g ∧
      teff.get? ii = some t ∧
      line = "dummy " ++ fmtFixed 3 c ++ " " ++ fmtFixed 3 n ++ " " ++
        fmtFixed 3 a ++ " " ++ fmtFixed 3 m ++ " " ++ fmtFixed 3 g ++ " " ++
        fmtFixed 1 t := by
  simp only [ipfRecordLine, bind, Option.bind_eq_some, Option.some.injEq] at h
  obtain ⟨pre, hpre, c, hc, n, hn, a, ha, m, hm, g, hg, t, ht, hline⟩ := h
  exact ⟨c, n, a, m, g, t, hc, hn, ha, hm, hg, ht, by rw [← hline, ← hpre]⟩

theorem ipfRecordLine_eq_vm (log10 : ℚ → ℚ)
    (teff logg metals am nm cm vs : List ℚ) (ii : Nat) (v c n a m g t : ℚ)
    (hv : vs.get? ii = some v) (hc : cm.get? ii = some c)
    (hn : nm.get? ii = some n) (ha : am.get? ii = some a)
    (hm : metals.get? ii = some m) (hg : logg.get? ii = some g)
    (ht : teff.get? ii = some t) :
    ipfRecordLine log10 teff logg metals am nm cm (some vs) ii =
      some (("dummy " ++ fmtFixed 3 (log10 v) ++ " ") ++ fmtFixed 3 c ++ " " ++
        fmtFixed 3 n ++ " " ++ fmtFixed 3 a ++ " " ++ fmtFixed 3 m ++ " " ++
        fmtFixed 3 g ++ " " ++ fmtFixed 1 t) := by
  simp only [List.get?_eq_getElem?] at hv hc hn ha hm hg ht
  simp [ipfRecordLine, hv, hc, hn, ha, hm, hg, ht]

theorem ipfRecordLine_eq (log10 : ℚ → ℚ)
    (teff logg metals am nm cm : List ℚ) (ii : Nat) (c n a m g t : ℚ)
    (hc : cm.get? ii = some c) (hn : nm.get? ii = some n)
    (ha : am.get? ii = some a) (hm : metals.get? ii = some m)
    (hg : logg.get? ii = some g) (ht : teff.get? ii = some t) :
    ipfRecordLine log10 teff logg metals am nm cm Option.none ii =
      some ("dummy " ++ fmtFixed 3 c ++ " " ++ fmtFixed 3 n ++ " " ++
        fmtFixed 3 a ++ " " ++ fmtFixed 3 m ++ " " ++ fmtFixed 3 g ++ " " ++
        fmtFixed 1 t) := by
  simp only [List.get?_eq_getElem?] at hc hn ha hm hg ht
  simp [ipfRecordLine, hc, hn, ha, hm, hg, ht]

/-- Spec-side notion for claim C5: the space-separated fields of a line of
characters, splitting at every space. -/
def splitFields : List Char → List (List Char)
  | [] => [[]]
  | c :: cs =>
    if c = ' ' then [] :: splitFields cs
    else
      match splitFields cs with
      | [] => [[c]]
      | f :: rest => (c :: f) :: rest

theorem splitFields_append_space (xs ys : List Char) (hxs : ' ' ∉ xs) :
    splitFields (xs ++ ' ' :: ys) = xs :: splitFields ys := by
  induction xs with
  | nil => simp [splitFields]
  | cons c cs ih =>
    have hc : ¬ c = ' ' := fun hh => hxs (hh ▸ List.mem_cons_self c cs)
    have hcs : ' ' ∉ cs := fun hh => hxs (List.mem_cons_of_mem _ hh)
    simp only [List.cons_append, splitFields, if_neg hc, List.append_eq]
    rw [ih hcs]

theorem splitFields_no_space (xs : List Char) (h : ' ' ∉ xs) :
    splitFields xs = [xs] := by
  induction xs with
  | nil => rfl
  | cons c cs ih =>
    have hc : ¬ c = ' ' := fun hh => h (hh ▸ List.mem_cons_self c cs)
    have hcs : ' ' ∉ cs := fun hh => h (List.mem_cons_of_mem _ hh)
    simp only [splitFields, if_neg hc, ih hcs]

theorem splitFields_dummy (rest : List Char) :
    splitFields ('d' :: 'u' :: 'm' :: 'm' :: 'y' :: ' ' :: rest) =
      ['d', 'u', 'm', 'm', 'y'] :: splitFields rest := by
  simpa using splitFields_append_space ['d', 'u', 'm', 'm', 'y'] rest (by decide)

theorem splitFields_line (s1 s2 s3 s4 s5 s6 : String)
    (h1 : ' ' ∉ s1.data) (h2 : ' ' ∉ s2.data) (h3 : ' ' ∉ s3.data)
    (h4 : ' ' ∉ s4.data) (h5 : ' ' ∉ s5.data) (h6 : ' ' ∉ s6.data) :
    splitFields ("dummy " ++ s1 ++ " " ++ s2 ++ " " ++ s3 ++ " " ++ s4 ++
        " " ++ s5 ++ " " ++ s6).data =
      ["dummy".data, s1.data, s2.data, s3.data, s4.data, s5.data, s6.data] := by
  have hd : ("dummy " : String).data = ['d', 'u', 'm', 'm', 'y', ' '] := rfl
  have hsp : (" " : String).data = [' '] := rfl
  simp only [String.data_append, hd, hsp, List.append_assoc,
    List.singleton_append, List.cons_append, List.nil_append]
  rw [splitFields_dummy, splitFields_append_space s1.data _ h1,
    splitFields_append_space s2.data _ h2, splitFields_append_space s3.data _ h3,
    splitFields_append_space s4.data _ h4, splitFields_append_space s5.data _ h5,
    splitFields_no_space s6.data h6]

theorem ipfRecordLine_components (log10 : ℚ → ℚ)
    (teff logg metals am nm cm : List ℚ) (vm : Option (List ℚ)) (ii : Nat)
    (line : String)
    (h : ipfRecordLine log10 teff logg metals am nm cm vm ii = some line) :
    ii < cm.length ∧ ii < nm.length ∧ ii < am.length ∧ ii < metals.length ∧
    ii < logg.length ∧ ii < teff.length ∧
    ∀ vs, vm = some vs → ii < vs.length := by
  cases vm with
  | none =>
    obtain ⟨c, n, a, m, g, t, hc, hn, ha, hm, hg, ht, _⟩ :=
      ipfRecordLine_some_inv log10 teff logg metals am nm cm ii line h
    exact ⟨(List.get?_eq_some.1 hc).1, (List.get?_eq_some.1 hn).1,
      (List.get?_eq_some.1 ha).1, (List.get?_eq_some.1 hm).1,
      (List.get?_eq_some.1 hg).1, (List.get?_eq_some.1 ht).1,
      fun vs hvs => by exact absurd hvs (by simp)⟩
  | some vs =>
    obtain ⟨v, c, n, a, m, g, t, hv, hc, hn, ha, hm, hg, ht, _⟩ :=
      ipfRecordLine_some_vm_inv log10 teff logg metals am nm cm vs ii line h
    refine ⟨(List.get?_eq_some.1 hc).1, (List.get?_eq_some.1 hn).1,
      (List.get?_eq_some.1 ha).1, (List.get?_eq_some.1 hm).1,
      (List.get?_eq_some.1 hg).1, (List.get?_eq_some.1 ht).1, ?_⟩
    intro vs' hvs'
    injection hvs' with hvs'
    subst hvs'
    exact (List.get?_eq_some.1 hv).1

/-- Claim C3: every record written by `write_interpolate_ipf` — with or
without microturbulence — holds the placeholder identifier token followed
by the parameter values in the fixed column order: microturbulence, if
present, expressed as its base-10 logarithm to 3 decimal places, then
carbon, nitrogen, alpha, overall metallicity and surface gravity to 3
decimal places each, and effective temperature to 1 decimal place. -/
theorem write_interpolate_ipf_line_format (log10 : ℚ → ℚ)
    (teff logg metals am nm cm : List ℚ) (vm : Option (List ℚ))
    (lines : List String)
    (hw : write_interpolate_ipf log10 teff logg metals am nm cm vm =
      some lines) :
    ∀ ii line, lines.get? ii = some line →
      ∃ c n a m g t, cm.get? ii = some c ∧ nm.get? ii = some n ∧
        am.get? ii = some a ∧ metals.get? ii = some m ∧
        logg.get? ii = some g ∧ teff.get? ii = some t ∧
        ((vm = Option.none ∧
          line = "dummy " ++ fmtFixed 3 c ++ " " ++ fmtFixed 3 n ++ " " ++
            fmtFixed 3 a ++ " " ++ fmtFixed 3 m ++ " " ++ fmtFixed 3 g ++
            " " ++ fmtFixed 1 t) ∨
         (∃ vs v, vm = some vs ∧ vs.get? ii = some v ∧
          line = ("dummy " ++ fmtFixed 3 (log10 v) ++ " ") ++ fmtFixed 3 c ++
            " " ++ fmtFixed 3 n ++ " " ++ fmtFixed 3 a ++ " " ++
            fmtFixed 3 m ++ " " ++ fmtFixed 3 g ++ " " ++ fmtFixed 1 t)) := by
  intro ii line hline
  have hlen := optionMap_length _ _ _ hw
  have hii : ii < teff.length := by
    have h1 : ii < lines.length := (List.get?_eq_some.1 hline).1
    rw [hlen] at h1
    simpa using h1
  obtain ⟨y, hy, hy2⟩ :=
    optionMap_get? _ _ _ hw ii ii (List.get?_range hii)
  rw [hline] at hy2
  injection hy2 with hy2
  subst hy2
  cases vm with
  | none =>
    obtain ⟨c, n, a, m, g, t, hc, hn, ha, hm, hg, ht, hl⟩ :=
      ipfRecordLine_some_inv log10 teff logg metals am nm cm ii line hy
    exact ⟨c, n, a, m, g, t, hc, hn, ha, hm, hg, ht, Or.inl ⟨rfl, hl⟩⟩
  | some vs =>
    obtain ⟨v, c, n, a, m, g, t, hv, hc, hn, ha, hm, hg, ht, hl⟩ :=
      ipfRecordLine_some_vm_inv log10 teff logg metals am nm cm vs ii line hy
    exact ⟨c, n, a, m, g, t, hc, hn, ha, hm, hg, ht,
      Or.inr ⟨vs, v, rfl, hv, hl⟩⟩

/-- Claim C3 witness: concrete one-record calls, one with microturbulence
and one without. -/
theorem write_interpolate_ipf_line_format_witness :
    (∃ c n a m g t : ℚ, [mkRat 1 10].get? 0 = some c ∧
      [mkRat 2 10].get? 0 = some n ∧ [mkRat 3 10].get? 0 = some a ∧
      [mkRat (-1) 2].get? 0 = some m ∧ [mkRat 45 10].get? 0 = some g ∧
      [mkRat 4000 1].get? 0 = some t ∧
      (((some [mkRat 10 1] : Option (List ℚ)) = Option.none ∧
        "dummy 10.000 0.100 0.200 0.300 -0.500 4.500 4000.0" =
          "dummy " ++ fmtFixed 3 c ++ " " ++ fmtFixed 3 n ++ " " ++
            fmtFixed 3 a ++ " " ++ fmtFixed 3 m ++ " " ++ fmtFixed 3 g ++
            " " ++ fmtFixed 1 t) ∨
       (∃ vs v, (some [mkRat 10 1] : Option (List ℚ)) = some vs ∧
        vs.get? 0 = some v ∧
        "dummy 10.000 0.100 0.200 0.300 -0.500 4.500 4000.0" =
          ("dummy " ++ fmtFixed 3 v ++ " ") ++ fmtFixed 3 c ++ " " ++
            fmtFixed 3 n ++ " " ++ fmtFixed 3 a ++ " " ++ fmtFixed 3 m ++
            " " ++ fmtFixed 3 g ++ " " ++ fmtFixed 1 t))) ∧
    (∃ c n a m g t : ℚ, [mkRat 1 10].get? 0 = some c ∧
      [mkRat 2 10].get? 0 = some n ∧ [mkRat 3 10].get? 0 = some a ∧
      [mkRat (-1) 2].get? 0 = some m ∧ [mkRat 45 10].get? 0 = some g ∧
      [mkRat 4000 1].get? 0 = some t ∧
      (((Option.none : Option (List ℚ)) = Option.none ∧
        "dummy 0.100 0.200 0.300 -0.500 4.500 4000.0" =
          "dummy " ++ fmtFixed 3 c ++ " " ++ fmtFixed 3 n ++ " " ++
            fmtFixed 3 a ++ " " ++ fmtFixed 3 m ++ " " ++ fmtFixed 3 g ++
            " " ++ fmtFixed 1 t) ∨
       (∃ vs v, (Option.none : Option (List ℚ)) = some vs ∧
        vs.get? 0 = some v ∧
        "dummy 0.100 0.200 0.300 -0.500 4.500 4000.0" =
          ("dummy " ++ fmtFixed 3 v ++ " ") ++ fmtFixed 3 c ++ " " ++
            fmtFixed 3 n ++ " " ++ fmtFixed 3 a ++ " " ++ fmtFixed 3 m ++
            " " ++ fmtFixed 3 g ++ " " ++ fmtFixed 1 t))) :=
  ⟨write_interpolate_ipf_line_format (fun q => q) [mkRat 4000 1]
    [mkRat 45 10] [mkRat (-1) 2] [mkRat 3 10] [mkRat 2 10] [mkRat 1 10]
    (some [mkRat 10 1])
    ["dummy 10.000 0.100 0.200 0.300 -0.500 4.500 4000.0"] (by decide)
    0 "dummy 10.000 0.100 0.200 0.300 -0.500 4.500 4000.0" rfl,
   write_interpolate_ipf_line_format (fun q => q) [mkRat 4000 1]
    [mkRat 45 10] [mkRat (-1) 2] [mkRat 3 10] [mkRat 2 10] [mkRat 1 10]
    Option.none
    ["dummy 0.100 0.200 0.300 -0.500 4.500 4000.0"] (by decide)
    0 "dummy 0.100 0.200 0.300 -0.500 4.500 4000.0" rfl⟩

/-- Claim C5: for every call to `write_interpolate_ipf` with six parameter
sequences and no microturbulence, every line written to the record file
consists of the leading placeholder token `dummy` plus exactly 6
space-separated numeric fields. -/
theorem write_interpolate_ipf_six_fields (log10 : ℚ → ℚ)
    (teff logg metals am nm cm : List ℚ) (lines : List String)
    (hw : write_interpolate_ipf log10 teff logg metals am nm cm Option.none =
      some lines) :
    ∀ line ∈ lines, ∃ fields : List (List Char),
      splitFields line.data = "dummy".data :: fields ∧
      fields.length = 6 ∧
      ∀ f ∈ fields, f ≠ [] ∧ ∀ c ∈ f, isNumChar c = true := by
  intro line hline
  obtain ⟨ii, hii⟩ := List.mem_iff_get?.1 hline
  have hlen := optionMap_length _ _ _ hw
  have hii' : ii < teff.length := by
    have h1 : ii < lines.length := (List.get?_eq_some.1 hii).1
    rw [hlen] at h1
    simpa using h1
  obtain ⟨y, hy, hy2⟩ :=
    optionMap_get? _ _ _ hw ii ii (List.get?_range hii')
  rw [hii] at hy2
  injection hy2 with hy2
  subst hy2
  obtain ⟨c, n, a, m, g, t, _, _, _, _, _, _, hline'⟩ :=
    ipfRecordLine_some_inv log10 teff logg metals am nm cm ii line hy
  subst hline'
  refine ⟨[fmtChars 3 c, fmtChars 3 n, fmtChars 3 a, fmtChars 3 m,
    fmtChars 3 g, fmtChars 1 t], ?_, rfl, ?_⟩
  · exact splitFields_line (fmtFixed 3 c) (fmtFixed 3 n) (fmtFixed 3 a)
      (fmtFixed 3 m) (fmtFixed 3 g) (fmtFixed 1 t)
      (fmtChars_no_space 3 c) (fmtChars_no_space 3 n) (fmtChars_no_space 3 a)
      (fmtChars_no_space 3 m) (fmtChars_no_space 3 g) (fmtChars_no_space 1 t)
  · intro f hf
    simp only [List.mem_cons, List.not_mem_nil, or_false] at hf
    rcases hf with h | h | h | h | h | h <;> subst h <;>
      exact ⟨fmtChars_ne_nil _ _, fmtChars_numChar _ _⟩

/-- Claim C5 witness: a concrete one-record call without microturbulence. -/
theorem write_interpolate_ipf_six_fields_witness :
    ∃ fields : List (List Char),
      splitFields ("dummy 0.100 0.200 0.300 -0.500 4.500 4000.0" :
        String).data = "dummy".data :: fields ∧
      fields.length = 6 ∧
      ∀ f ∈ fields, f ≠ [] ∧ ∀ c ∈ f, isNumChar c = true :=
  write_interpolate_ipf_six_fields (fun q => q) [mkRat 4000 1] [mkRat 45 10]
    [mkRat (-1) 2] [mkRat 3 10] [mkRat 2 10] [mkRat 1 10]
    ["dummy 0.100 0.200 0.300 -0.500 4.500 4000.0"] (by decide)
    "dummy 0.100 0.200 0.300 -0.500 4.500 4000.0" (List.mem_singleton.2 rfl)

/-- Claim C9: in array mode the number of lines written equals the length
of the effective-temperature sequence exactly; a later sequence shorter
than the effective-temperature sequence makes the writer fail with an
index error rather than truncate; a longer one has its extra entries
silently ignored. -/
theorem write_interpolate_ipf_length_contract (log10 : ℚ → ℚ)
    (teff logg metals am nm cm : List ℚ) (vm : Option (List ℚ)) :
    ((∀ vs, vm = some vs → teff.length ≤ vs.length) →
      teff.length ≤ logg.length → teff.length ≤ metals.length →
      teff.length ≤ am.length → teff.length ≤ nm.length →
      teff.length ≤ cm.length →
      ∃ lines, write_interpolate_ipf log10 teff logg metals am nm cm vm =
        some lines ∧ lines.length = teff.length) ∧
    ((logg.length < teff.length ∨ metals.length < teff.length ∨
      am.length < teff.length ∨ nm.length < teff.length ∨
      cm.length < teff.length ∨
      (∃ vs, vm = some vs ∧ vs.length < teff.length)) →
      write_interpolate_ipf log10 teff logg metals am nm cm vm =
        Option.none) ∧
    (write_interpolate_ipf log10 teff logg metals am nm cm vm =
      write_interpolate_ipf log10 teff (logg.take teff.length)
        (metals.take teff.length) (am.take teff.length)
        (nm.take teff.length) (cm.take teff.length)
        (vm.map (fun vs => vs.take teff.length))) := by
  refine ⟨?_, ?_, ?_⟩
  · intro hvm hg hm ha hn hc
    have hsome : ∀ ii ∈ List.range teff.length,
        (ipfRecordLine log10 teff logg metals am nm cm vm ii).isSome = true := by
      intro ii hii
      have hii' : ii < teff.length := List.mem_range.1 hii
      obtain ⟨t, ht⟩ : ∃ t, teff.get? ii = some t :=
        ⟨_, List.get?_eq_get hii'⟩
      obtain ⟨g, hg'⟩ : ∃ g, logg.get? ii = some g :=
        ⟨_, List.get?_eq_get (lt_of_lt_of_le hii' hg)⟩
      obtain ⟨m, hm'⟩ : ∃ m, metals.get? ii = some m :=
        ⟨_, List.get?_eq_get (lt_of_lt_of_le hii' hm)⟩
      obtain ⟨a, ha'⟩ : ∃ a, am.get? ii = some a :=
        ⟨_, List.get?_eq_get (lt_of_lt_of_le hii' ha)⟩
      obtain ⟨n, hn'⟩ : ∃ n, nm.get? ii = some n :=
        ⟨_, List.get?_eq_get (lt_of_lt_of_le hii' hn)⟩
      obtain ⟨c, hc'⟩ : ∃ c, cm.get? ii = some c :=
        ⟨_, List.get?_eq_get (lt_of_lt_of_le hii' hc)⟩
      cases vm with
      | none =>
        rw [ipfRecordLine_eq log10 teff logg metals am nm cm ii c n a m g t
          hc' hn' ha' hm' hg' ht]
        rfl
      | some vs =>
        obtain ⟨v, hv⟩ : ∃ v, vs.get? ii = some v :=
          ⟨_, List.get?_eq_get (lt_of_lt_of_le hii' (hvm vs rfl))⟩
        rw [ipfRecordLine_eq_vm log10 teff logg metals am nm cm vs ii v c n a
          m g t hv hc' hn' ha' hm' hg' ht]
        rfl
    obtain ⟨lines, hlines⟩ := optionMap_isSome _ _ hsome
    refine ⟨lines, hlines, ?_⟩
    simpa using optionMap_length _ _ _ hlines
  · intro hshort
    have fail : ∃ i, i < teff.length ∧
        ipfRecordLine log10 teff logg metals am nm cm vm i = Option.none := by
      rcases hshort with h | h | h | h | h | ⟨vs, hvs, h⟩
      · refine ⟨logg.length, h, ?_⟩
        cases hrec : ipfRecordLine log10 teff logg metals am nm cm vm
            logg.length with
        | none => rfl
        | some line =>
          obtain ⟨_, _, _, _, h5, _, _⟩ :=
            ipfRecordLine_components log10 teff logg metals am nm cm vm _ _ hrec
          exact absurd h5 (lt_irrefl _)
      · refine ⟨metals.length, h, ?_⟩
        cases hrec : ipfRecordLine log10 teff logg metals am nm cm vm
            metals.length with
        | none => rfl
        | some line =>
          obtain ⟨_, _, _, h4, _, _, _⟩ :=
            ipfRecordLine_components log10 teff logg metals am nm cm vm _ _ hrec
          exact absurd h4 (lt_irrefl _)
      · refine ⟨am.length, h, ?_⟩
        cases hrec : ipfRecordLine log10 teff logg metals am nm cm vm
            am.length with
        | none => rfl
        | some line =>
          obtain ⟨_, _, h3, _, _, _, _⟩ :=
            ipfRecordLine_components log10 teff logg metals am nm cm vm _ _ hrec
          exact absurd h3 (lt_irrefl _)
      · refine ⟨nm.length, h, ?_⟩
        cases hrec : ipfRecordLine log10 teff logg metals am nm cm vm
            nm.length with
        | none => rfl
        | some line =>
          obtain ⟨_, h2, _, _, _, _, _⟩ :=
            ipfRecordLine_components log10 teff logg metals am nm cm vm _ _ hrec
          exact absurd h2 (lt_irrefl _)
      · refine ⟨cm.length, h, ?_⟩
        cases hrec : ipfRecordLine log10 teff logg metals am nm cm vm
            cm.length with
        | none => rfl
        | some line =>
          obtain ⟨h1, _, _, _, _, _, _⟩ :=
            ipfRecordLine_components log10 teff logg metals am nm cm vm _ _ hrec
          exact absurd h1 (lt_irrefl _)
      · refine ⟨vs.length, h, ?_⟩
        cases hrec : ipfRecordLine log10 teff logg metals am nm cm vm
            vs.length with
        | none => rfl
        | some line =>
          obtain ⟨_, _, _, _, _, _, h7⟩ :=
            ipfRecordLine_components log10 teff logg metals am nm cm vm _ _ hrec
          exact absurd (h7 vs hvs) (lt_irrefl _)
    obtain ⟨i, hi, hnone⟩ := fail
    exact optionMap_none_of_mem _ _ i (List.mem_range.2 hi) hnone
  · apply optionMap_congr
    intro ii hii
    have hii' : ii < teff.length := List.mem_range.1 hii
    cases vm with
    | none =>
      simp only [Option.map_none', ipfRecordLine]
      rw [List.get?_take hii', List.get?_take hii', List.get?_take hii',
        List.get?_take hii', List.get?_take hii']
    | some vs =>
      simp only [Option.map_some', ipfRecordLine]
      rw [List.get?_take hii', List.get?_take hii', List.get?_take hii',
        List.get?_take hii', List.get?_take hii', List.get?_take hii']

/-- Claim C9 witness: a two-record call with adequate lengths yields two
lines, and a one-record effective-temperature sequence with an empty
carbon sequence fails. -/
theorem write_interpolate_ipf_length_contract_witness :
    (∃ lines, write_interpolate_ipf (fun q => q)
        [mkRat 4000 1, mkRat 5000 1] [mkRat 45 10, mkRat 4 1]
        [mkRat (-1) 2, mkRat 0 1] [mkRat 3 10, mkRat 0 1]
        [mkRat 2 10, mkRat 0 1] [mkRat 1 10, mkRat 0 1] Option.none =
        some lines ∧ lines.length = 2) ∧
    write_interpolate_ipf (fun q => q) [mkRat 4000 1] [mkRat 45 10]
      [mkRat (-1) 2] [mkRat 3 10] [mkRat 2 10] [] Option.none =
      Option.none :=
  ⟨(write_interpolate_ipf_length_contract (fun q => q)
      [mkRat 4000 1, mkRat 5000 1] [mkRat 45 10, mkRat 4 1]
      [mkRat (-1) 2, mkRat 0 1] [mkRat 3 10, mkRat 0 1]
      [mkRat 2 10, mkRat 0 1] [mkRat 1 10, mkRat 0 1] Option.none).1
      (fun vs hvs => by exact absurd hvs (by simp))
      (by decide) (by decide) (by decide) (by decide) (by decide),
   (write_interpolate_ipf_length_contract (fun q => q) [mkRat 4000 1]
      [mkRat 45 10] [mkRat (-1) 2] [mkRat 3 10] [mkRat 2 10] []
      Option.none).2.1 (Or.inr (Or.inr (Or.inr (Or.inr (Or.inl
      (by decide))))))⟩

/-- Claim C10 witness: a concrete numeric directive line carries no quote
character. -/
theorem write_input_nml_quoting_witness :
    squote ∉ (("NDIM = " ++ natStr 5) : String).data :=
  (write_input_nml_quoting "p.ipf" "o.dat" "s.hdr" 5 0 3 1 1).2.2.2 1
    (by decide) ("NDIM = " ++ natStr 5) rfl

end Ferre
